import Mathlib

/-!
Verification of the `books` command-line tool (src/main.rs) against its
specification.  The program is a thin CRUD wrapper over a SQLite database
with two tables, `book` and `author`.  We embed the database state as a
`Store` (lists of rows), each command handler as a state transition, and
model SQLite behaviour (primary keys, foreign keys, ON UPDATE CASCADE,
ORDER BY) explicitly.  The schema itself lives in `schema.sql`, which is
referenced by `include_str!` in main.rs; constraint behaviour is therefore
modelled from the specification's schema description.
-/

/-- Row of the `book` table: `book(title TEXT PRIMARY KEY, url TEXT,
start_date TEXT, end_date TEXT)`.  Optional columns are `Option String`. -/
structure Book where
  title : String
  url : Option String
  start_date : Option String
  end_date : Option String
deriving Repr, DecidableEq

/-- Row of the `author` table: `author(title TEXT REFERENCES book(title),
author TEXT, PRIMARY KEY(title, author))`. -/
structure AuthorRow where
  title : String
  author : String
deriving Repr, DecidableEq

/-- The database state: the contents of the two tables, in insertion order. -/
structure Store where
  books : List Book
  authors : List AuthorRow
deriving Repr, DecidableEq

/-- The empty database, as created by schema initialization. -/
def Store.empty : Store := { books := [], authors := [] }

/-- The book row inserted by Add: the given title and optional URL, with
both dates NULL. -/
def newBook (t : String) (u : Option String) : Book :=
  { title := t, url := u, start_date := none, end_date := none }

/-- The command-line options, one constructor per variant of the `Options`
enum in main.rs (Add, Finish, List, Rename, SetUrl, Show, Start). -/
inductive Options where
  | Add (title : String) (authors : List String) (url : Option String)
  | Finish (title : String)
  | List (finished started without_url : Bool)
  | Rename (old_title new_title : String)
  | SetUrl (title url : String)
  | Show (title : String)
  | Start (title : String)
deriving Repr, DecidableEq

/-- Modelled from the spec: `schema.sql` is not under src/; the spec gives
`book(title TEXT PRIMARY KEY, ...)`, so `INSERT INTO book` fails when the
title is already present.  Otherwise the row is appended with NULL dates. -/
def insertBook (s : Store) (title : String) (url : Option String) :
    Except String Store :=
  if s.books.any fun b => b.title == title then
    .error "cannot execute statement: UNIQUE constraint failed: book.title"
  else
    .ok { s with books :=
      s.books ++ [{ title := title, url := url, start_date := none, end_date := none }] }

/-- Modelled from the spec: `author` has `PRIMARY KEY(title, author)` and
`title REFERENCES book(title)`; with FOREIGN_KEYS enabled (main.rs line 111)
`INSERT INTO author VALUES (?, ?)` fails on a duplicate key or a missing
referenced book. -/
def insertAuthor (s : Store) (title author : String) : Except String Store :=
  if s.authors.any fun a => a.title == title && a.author == author then
    .error "cannot execute statement: UNIQUE constraint failed: author.title, author.author"
  else if s.books.any fun b => b.title == title then
    .ok { s with authors := s.authors ++ [{ title := title, author := author }] }
  else
    .error "cannot execute statement: FOREIGN KEY constraint failed"

/-- The per-author insert loop of the Add handler (main.rs lines 139-146):
insert one `author` row per author name, stopping at the first failure. -/
def addAuthors (title : String) : Store → List String → Except String Store
  | s, [] => .ok s
  | s, a :: rest =>
    match insertAuthor s title a with
    | .error e => .error e
    | .ok s2 => addAuthors title s2 rest

/-- The body of the Add transaction (main.rs lines 119-149): insert the book
row (with the URL if given), then one author row per author. -/
def addExec (s : Store) (title : String) (authors : List String)
    (url : Option String) : Except String Store :=
  match insertBook s title url with
  | .error e => .error e
  | .ok s2 => addAuthors title s2 authors

/-- An `UPDATE book SET ... WHERE title = ?` statement whose SET clause does
not touch the primary key, followed by the handler's affected-row check:
the handlers for Finish, SetUrl and Start die with "not found" unless
exactly one row was affected (main.rs lines 151-162, 209-217, 266-277). -/
def updateWhere (s : Store) (title : String) (f : Book → Book) :
    Except String Store :=
  if (s.books.countP fun b => b.title == title) = 1 then
    .ok { s with books := s.books.map fun b => if b.title == title then f b else b }
  else
    .error ("not found: " ++ title)

/-- Finish handler: `UPDATE book SET end_date = date('now','localtime')
WHERE title = ?`.  The current local date is the `today` parameter. -/
def finishExec (s : Store) (title today : String) : Except String Store :=
  updateWhere s title fun b => { b with end_date := some today }

/-- Start handler: `UPDATE book SET start_date = date('now','localtime')
WHERE title = ?`. -/
def startExec (s : Store) (title today : String) : Except String Store :=
  updateWhere s title fun b => { b with start_date := some today }

/-- SetUrl handler: `UPDATE book SET url = ? WHERE title = ?`. -/
def setUrlExec (s : Store) (title url : String) : Except String Store :=
  updateWhere s title fun b => { b with url := some url }

/-- Duplicate-key test for the `author` table: true when two rows share the
composite key (title, author). -/
def dupAuthorKeys : List AuthorRow → Bool
  | [] => false
  | a :: rest =>
    (rest.any fun a2 => a2.title == a.title && a2.author == a.author) || dupAuthorKeys rest

/-- Rename handler (main.rs lines 194-208): `UPDATE book SET title = ?
WHERE title = ?` with the affected-row check.  Modelled from the spec for
the constraint part: `title` is the primary key of `book`, and `author.title`
has ON UPDATE CASCADE, so a matched rename to an existing distinct title
fails, the author rows follow the title change, and a cascade that would
duplicate an `author` key fails. -/
def renameExec (s : Store) (old_title new_title : String) :
    Except String Store :=
  if (s.books.countP fun b => b.title == old_title) = 0 then
    .error ("not found: " ++ old_title)
  else if old_title ≠ new_title && (s.books.any fun b => b.title == new_title) then
    .error "cannot execute statement: UNIQUE constraint failed: book.title"
  else if dupAuthorKeys (s.authors.map fun a =>
      if a.title == old_title then { a with title := new_title } else a) then
    .error "cannot execute statement: UNIQUE constraint failed: author.title, author.author"
  else if (s.books.countP fun b => b.title == old_title) = 1 then
    .ok { books := s.books.map fun b =>
            if b.title == old_title then { b with title := new_title } else b,
          authors := s.authors.map fun a =>
            if a.title == old_title then { a with title := new_title } else a }
  else
    .error ("not found: " ++ old_title)

/-- Comparison used to model `ORDER BY title` (ascending lexicographic). -/
def titleLe (a b : Book) : Bool := decide (a.title ≤ b.title)

/-- Comparison used to model `ORDER BY end_date` (ascending; the rows being
sorted all have a non-NULL end_date). -/
def endDateLe (a b : Book) : Bool := decide (a.end_date.getD "" ≤ b.end_date.getD "")

/-- List handler (main.rs lines 163-192): pick the SELECT statement by the
if/else-if chain over the flags, run it, and print one title per row. -/
def selectList (finished started without_url : Bool) (s : Store) : List String :=
  if finished then
    ((s.books.filter fun b => b.end_date.isSome).mergeSort endDateLe).map Book.title
  else if started then
    ((s.books.filter fun b => b.start_date.isSome && b.end_date.isNone).mergeSort
      titleLe).map Book.title
  else if without_url then
    ((s.books.filter fun b => b.url.isNone).mergeSort titleLe).map Book.title
  else
    ((s.books.filter fun b => b.start_date.isNone).mergeSort titleLe).map Book.title

/-- The `SELECT author FROM author WHERE title = ?` loop of the Show handler
(main.rs lines 247-262), in row order. -/
def authorsOf (s : Store) (title : String) : List String :=
  (s.authors.filter fun a => a.title == title).map AuthorRow.author

/-- Show handler (main.rs lines 218-264): look the book up by title; if
absent, print nothing (the `if let Some` has no else branch); otherwise
print the title, the optional URL and dates, and the comma-joined authors. -/
def showExec (s : Store) (title : String) : List String :=
  match s.books.find? fun b => b.title == title with
  | none => []
  | some b =>
    ["Title: " ++ title]
    ++ (match b.url with | some u => ["URL: " ++ u] | none => [])
    ++ (match b.start_date with | some d => ["Started: " ++ d] | none => [])
    ++ (match b.end_date with | some d => ["Finished: " ++ d] | none => [])
    ++ ["Authors: " ++ String.intercalate ", " (authorsOf s title)]

/-- One invocation of the program on database state `s`, with `today` the
value of `date('now','localtime')`.  Returns the resulting database state,
the standard-output lines, and the fatal `die!` message if any.  On failure
the state is unchanged: Add runs inside a transaction that is never
committed, and the other failures affect zero rows. -/
def exec (c : Options) (today : String) (s : Store) :
    Store × List String × Option String :=
  match c with
  | .Add title authors url =>
    match addExec s title authors url with
    | .error e => (s, [], some e)
    | .ok s2 => (s2, [], none)
  | .Finish title =>
    match finishExec s title today with
    | .error e => (s, [], some e)
    | .ok s2 => (s2, [], none)
  | .List finished started without_url =>
    (s, selectList finished started without_url s, none)
  | .Rename old_title new_title =>
    match renameExec s old_title new_title with
    | .error e => (s, [], some e)
    | .ok s2 => (s2, [], none)
  | .SetUrl title url =>
    match setUrlExec s title url with
    | .error e => (s, [], some e)
    | .ok s2 => (s2, [], none)
  | .Show title => (s, showExec s title, none)
  | .Start title =>
    match startExec s title today with
    | .error e => (s, [], some e)
    | .ok s2 => (s2, [], none)

/-- Look a book up by title (the shape of every WHERE title = ? lookup). -/
def getBook (s : Store) (t : String) : Option Book :=
  s.books.find? fun b => b.title == t

/-- Well-formedness of a store: exactly the SQLite constraints of the
schema — book titles unique, author composite keys unique, and every
author row references an existing book. -/
def WF (s : Store) : Prop :=
  s.books.Pairwise (fun a b => a.title ≠ b.title) ∧
  s.authors.Pairwise (fun a b => a.title ≠ b.title ∨ a.author ≠ b.author) ∧
  ∀ a ∈ s.authors, ∃ b ∈ s.books, b.title = a.title

instance : DecidablePred WF := fun s => by
  unfold WF
  infer_instance

example :
    (exec (.Show "Dune") "d"
      (exec (.Add "Dune" ["Frank Herbert"] none) "d" Store.empty).1).2.1 =
    ["Title: Dune", "Authors: Frank Herbert"] := by rfl

/-! Helper lemmas about row counting and lookup. -/

theorem countP_title_eq_zero (l : List Book) (t : String)
    (h : ∀ b ∈ l, b.title ≠ t) : (l.countP fun b => b.title == t) = 0 := by
  rw [List.countP_eq_zero]
  intro b hb
  simpa using h b hb

theorem countP_title_le_one (l : List Book) (t : String)
    (h : l.Pairwise fun a b => a.title ≠ b.title) :
    (l.countP fun b => b.title == t) ≤ 1 := by
  induction l with
  | nil => simp
  | cons a l ih =>
    rw [List.pairwise_cons] at h
    rw [List.countP_cons]
    by_cases ha : a.title = t
    · have h0 : (l.countP fun b => b.title == t) = 0 := by
        apply countP_title_eq_zero
        intro b hb hbt
        exact h.1 b hb (hbt ▸ ha)
      simp [h0, ha]
    · have := ih h.2
      simp [ha]
      omega

theorem countP_title_eq_one (l : List Book) (t : String) (b : Book)
    (h : l.Pairwise fun a b => a.title ≠ b.title) (hb : b ∈ l)
    (ht : b.title = t) : (l.countP fun b => b.title == t) = 1 := by
  have h1 := countP_title_le_one l t h
  have h2 : 0 < l.countP fun b => b.title == t := by
    rw [List.countP_pos_iff]
    exact ⟨b, hb, by simp [ht]⟩
  omega

/-- C1: Add with a title already present fails on the book insert inside the
transaction, so the state is returned unchanged — no Author row is created
and the existing book's author rows are untouched.
(spec-modelled: title uniqueness comes from the schema described in the spec.) -/
theorem add_duplicate_title_rolls_back (s : Store) (t today : String)
    (as : List String) (u : Option String) (b : Book) (hb : b ∈ s.books)
    (ht : b.title = t) :
    exec (.Add t as u) today s =
      (s, [], some "cannot execute statement: UNIQUE constraint failed: book.title") := by
  have hany : (s.books.any fun x => x.title == t) = true := by
    rw [List.any_eq_true]
    exact ⟨b, hb, by simp [ht]⟩
  simp [exec, addExec, insertBook, hany]

/-- Witness for C1 on a concrete one-book store. -/
theorem add_duplicate_title_rolls_back_witness :
    exec (.Add "Dune" ["X"] none) "d"
        { books := [{ title := "Dune", url := none, start_date := none, end_date := none }],
          authors := [{ title := "Dune", author := "Frank Herbert" }] } =
      ({ books := [{ title := "Dune", url := none, start_date := none, end_date := none }],
         authors := [{ title := "Dune", author := "Frank Herbert" }] }, [],
        some "cannot execute statement: UNIQUE constraint failed: book.title") :=
  add_duplicate_title_rolls_back _ "Dune" "d" ["X"] none
    { title := "Dune", url := none, start_date := none, end_date := none }
    (by simp) rfl

/-- C5: a Start, Finish, SetUrl or Rename whose target title matches no book
affects zero rows and fails with a "not found" message naming the title,
leaving the store unchanged. -/
theorem missing_title_not_found (s : Store) (t nt u today : String)
    (h : ∀ b ∈ s.books, b.title ≠ t) :
    exec (.Start t) today s = (s, [], some ("not found: " ++ t)) ∧
    exec (.Finish t) today s = (s, [], some ("not found: " ++ t)) ∧
    exec (.SetUrl t u) today s = (s, [], some ("not found: " ++ t)) ∧
    exec (.Rename t nt) today s = (s, [], some ("not found: " ++ t)) := by
  have hc : (s.books.countP fun b => b.title == t) = 0 := countP_title_eq_zero s.books t h
  refine ⟨?_, ?_, ?_, ?_⟩ <;>
    simp [exec, startExec, finishExec, setUrlExec, renameExec, updateWhere, hc]

/-- Witness for C5 on the empty store. -/
theorem missing_title_not_found_witness :
    exec (.Start "Dune") "d" Store.empty = (Store.empty, [], some "not found: Dune") ∧
    exec (.Finish "Dune") "d" Store.empty = (Store.empty, [], some "not found: Dune") ∧
    exec (.SetUrl "Dune" "u") "d" Store.empty = (Store.empty, [], some "not found: Dune") ∧
    exec (.Rename "Dune" "D2") "d" Store.empty = (Store.empty, [], some "not found: Dune") :=
  missing_title_not_found Store.empty "Dune" "D2" "u" "d" (by simp [Store.empty])

/-! Helper lemmas about the non-key UPDATE handlers. -/

theorem comp_title_pred (t title : String) (f : Book → Book)
    (hf : ∀ b, (f b).title = b.title) :
    ((fun b : Book => b.title == t) ∘ fun b => if b.title == title then f b else b) =
      fun b : Book => b.title == t := by
  funext b
  by_cases hb : b.title = title <;> simp [hb, hf]

theorem getBook_map_title_preserving (s : Store) (t title : String) (f : Book → Book)
    (hf : ∀ b, (f b).title = b.title) :
    getBook { s with books := s.books.map fun b => if b.title == title then f b else b } t =
      (getBook s t).map fun b => if b.title == title then f b else b := by
  unfold getBook
  rw [List.find?_map, comp_title_pred t title f hf]

theorem countP_map_title_preserving (l : List Book) (t title : String) (f : Book → Book)
    (hf : ∀ b, (f b).title = b.title) :
    ((l.map fun b => if b.title == title then f b else b).countP fun b => b.title == t) =
      (l.countP fun b => b.title == t) := by
  rw [List.countP_map, comp_title_pred t title f hf]

theorem updateWhere_getBook (s : Store) (t : String) (f : Book → Book)
    (hf : ∀ b, (f b).title = b.title)
    (hc : (s.books.countP fun b => b.title == t) = 1) :
    ∃ s2 b0, updateWhere s t f = .ok s2 ∧ getBook s t = some b0 ∧
      getBook s2 t = some (f b0) ∧
      ((s2.books.countP fun b => b.title == t) = 1 ∧ s2.authors = s.authors) := by
  have hsome : (s.books.find? fun b => b.title == t).isSome := by
    rw [List.find?_isSome]
    have h0 : 0 < s.books.countP fun b => b.title == t := by omega
    rw [List.countP_pos_iff] at h0
    exact h0
  obtain ⟨b0, hb0⟩ := Option.isSome_iff_exists.mp hsome
  have hb0t : b0.title = t := by simpa using List.find?_some hb0
  refine ⟨{ s with books := s.books.map fun b => if b.title == t then f b else b },
    b0, ?_, hb0, ?_, ?_, rfl⟩
  · unfold updateWhere
    simp [hc]
  · rw [getBook_map_title_preserving _ _ _ _ hf]
    unfold getBook
    rw [hb0]
    simp [hb0t]
  · exact (countP_map_title_preserving s.books t t f hf).trans hc

/-- C6: on an existing title, Start sets start_date to the current local
date and a following Finish sets end_date to the current local date while
keeping start_date; Finish also succeeds directly without a prior Start. -/
theorem start_then_finish (s : Store) (t d1 d2 : String)
    (hwf : WF s) (b : Book) (hb : b ∈ s.books) (ht : b.title = t) :
    ∃ s1 b1, exec (.Start t) d1 s = (s1, [], none) ∧
      getBook s1 t = some b1 ∧ b1.start_date = some d1 ∧
      (∃ s2 b2, exec (.Finish t) d2 s1 = (s2, [], none) ∧
        getBook s2 t = some b2 ∧ b2.start_date = some d1 ∧ b2.end_date = some d2) ∧
      (∃ s3 b3, exec (.Finish t) d2 s = (s3, [], none) ∧
        getBook s3 t = some b3 ∧ b3.end_date = some d2) := by
  have hc : (s.books.countP fun x => x.title == t) = 1 :=
    countP_title_eq_one s.books t b hwf.1 hb ht
  obtain ⟨s1, b0, hup, _, hget1, hc1, -⟩ :=
    updateWhere_getBook s t (fun x => { x with start_date := some d1 }) (fun _ => rfl) hc
  obtain ⟨s2, b1, hup2, hget1b, hget2, -, -⟩ :=
    updateWhere_getBook s1 t (fun x => { x with end_date := some d2 }) (fun _ => rfl) hc1
  obtain ⟨s3, b3, hup3, -, hget3, -, -⟩ :=
    updateWhere_getBook s t (fun x => { x with end_date := some d2 }) (fun _ => rfl) hc
  have hb1 : b1 = { b0 with start_date := some d1 } := by
    rw [hget1b] at hget1
    exact Option.some_inj.mp hget1
  refine ⟨s1, _, ?_, hget1, rfl, ⟨s2, _, ?_, hget2, ?_, rfl⟩, ⟨s3, _, ?_, hget3, rfl⟩⟩
  · simp [exec, startExec, hup]
  · simp [exec, finishExec, hup2]
  · rw [hb1]
  · simp [exec, finishExec, hup3]

/-- Witness for C6 on a concrete one-book store. -/
theorem start_then_finish_witness :
    ∃ s1 b1, exec (.Start "Dune") "2024-01-01"
        { books := [{ title := "Dune", url := none, start_date := none, end_date := none }],
          authors := [] } = (s1, [], none) ∧
      getBook s1 "Dune" = some b1 ∧ b1.start_date = some "2024-01-01" ∧
      (∃ s2 b2, exec (.Finish "Dune") "2024-02-01" s1 = (s2, [], none) ∧
        getBook s2 "Dune" = some b2 ∧ b2.start_date = some "2024-01-01" ∧
        b2.end_date = some "2024-02-01") ∧
      (∃ s3 b3, exec (.Finish "Dune") "2024-02-01"
          { books := [{ title := "Dune", url := none, start_date := none, end_date := none }],
            authors := [] } = (s3, [], none) ∧
        getBook s3 "Dune" = some b3 ∧ b3.end_date = some "2024-02-01") :=
  start_then_finish
    { books := [{ title := "Dune", url := none, start_date := none, end_date := none }],
      authors := [] } "Dune" "2024-01-01" "2024-02-01" (by decide)
    { title := "Dune", url := none, start_date := none, end_date := none } (by simp) rfl

/-- C10: Start on an already-started book, and Finish on an already-finished
book, succeed and overwrite the stored date with the new current date. -/
theorem restart_refinish_overwrites (s : Store) (t d1 d2 : String)
    (hwf : WF s) (b : Book) (hb : b ∈ s.books) (ht : b.title = t) :
    ∃ s1, exec (.Start t) d1 s = (s1, [], none) ∧
      (∃ s2 b2, exec (.Start t) d2 s1 = (s2, [], none) ∧
        getBook s2 t = some b2 ∧ b2.start_date = some d2) ∧
      (∃ s4, exec (.Finish t) d1 s1 = (s4, [], none) ∧
        ∃ s5 b5, exec (.Finish t) d2 s4 = (s5, [], none) ∧
          getBook s5 t = some b5 ∧ b5.end_date = some d2) := by
  have hc : (s.books.countP fun x => x.title == t) = 1 :=
    countP_title_eq_one s.books t b hwf.1 hb ht
  obtain ⟨s1, b0, hup, -, hget1, hc1, -⟩ :=
    updateWhere_getBook s t (fun x => { x with start_date := some d1 }) (fun _ => rfl) hc
  obtain ⟨s2, b1, hup2, -, hget2, -, -⟩ :=
    updateWhere_getBook s1 t (fun x => { x with start_date := some d2 }) (fun _ => rfl) hc1
  obtain ⟨s4, b4, hup4, -, hget4, hc4, -⟩ :=
    updateWhere_getBook s1 t (fun x => { x with end_date := some d1 }) (fun _ => rfl) hc1
  obtain ⟨s5, b5, hup5, -, hget5, -, -⟩ :=
    updateWhere_getBook s4 t (fun x => { x with end_date := some d2 }) (fun _ => rfl) hc4
  refine ⟨s1, by simp [exec, startExec, hup],
    ⟨s2, _, by simp [exec, startExec, hup2], hget2, rfl⟩,
    ⟨s4, by simp [exec, finishExec, hup4],
      s5, _, by simp [exec, finishExec, hup5], hget5, rfl⟩⟩

/-- Witness for C10 on a concrete one-book store. -/
theorem restart_refinish_overwrites_witness :
    ∃ s1, exec (.Start "Dune") "2024-01-01"
        { books := [{ title := "Dune", url := none, start_date := none, end_date := none }],
          authors := [] } = (s1, [], none) ∧
      (∃ s2 b2, exec (.Start "Dune") "2024-03-01" s1 = (s2, [], none) ∧
        getBook s2 "Dune" = some b2 ∧ b2.start_date = some "2024-03-01") ∧
      (∃ s4, exec (.Finish "Dune") "2024-01-01" s1 = (s4, [], none) ∧
        ∃ s5 b5, exec (.Finish "Dune") "2024-03-01" s4 = (s5, [], none) ∧
          getBook s5 "Dune" = some b5 ∧ b5.end_date = some "2024-03-01") :=
  restart_refinish_overwrites
    { books := [{ title := "Dune", url := none, start_date := none, end_date := none }],
      authors := [] } "Dune" "2024-01-01" "2024-03-01" (by decide)
    { title := "Dune", url := none, start_date := none, end_date := none } (by simp) rfl

/-! Helper lemmas about the List handler's ordering. -/

theorem titleLe_trans (a b c : Book) (h1 : titleLe a b) (h2 : titleLe b c) :
    titleLe a c := by
  simp only [titleLe, decide_eq_true_eq] at *
  exact le_trans h1 h2

theorem titleLe_total (a b : Book) : titleLe a b || titleLe b a := by
  simp only [titleLe, Bool.or_eq_true, decide_eq_true_eq]
  exact le_total a.title b.title

theorem endDateLe_trans (a b c : Book) (h1 : endDateLe a b) (h2 : endDateLe b c) :
    endDateLe a c := by
  simp only [endDateLe, decide_eq_true_eq] at *
  exact le_trans h1 h2

theorem endDateLe_total (a b : Book) : endDateLe a b || endDateLe b a := by
  simp only [endDateLe, Bool.or_eq_true, decide_eq_true_eq]
  exact le_total _ _

theorem pairwise_titles_of_mergeSort (l : List Book) :
    ((l.mergeSort titleLe).map Book.title).Pairwise (fun x y : String => x ≤ y) := by
  rw [List.pairwise_map]
  refine List.Pairwise.imp ?_ (List.sorted_mergeSort titleLe_trans titleLe_total l)
  intro a b h
  simpa [titleLe] using h

/-- C4: List with no filter prints exactly the titles whose start date is
unset, in lexicographic order, and List with --finished prints exactly the
titles whose end date is set, ordered by end date ascending. -/
theorem list_default_and_finished (s : Store) (today : String) :
    ((∀ t, t ∈ (exec (.List false false false) today s).2.1 ↔
        ∃ b ∈ s.books, b.title = t ∧ b.start_date = none) ∧
      (exec (.List false false false) today s).2.1.Pairwise
        (fun x y : String => x ≤ y)) ∧
    ∃ bs : List Book,
      (exec (.List true false false) today s).2.1 = bs.map Book.title ∧
      (∀ b, b ∈ bs ↔ b ∈ s.books ∧ b.end_date.isSome) ∧
      bs.Pairwise fun x y => x.end_date.getD "" ≤ y.end_date.getD "" := by
  have hdef : (exec (.List false false false) today s).2.1 =
      ((s.books.filter fun b : Book => b.start_date.isNone).mergeSort titleLe).map
        Book.title := rfl
  have hfin : (exec (.List true false false) today s).2.1 =
      ((s.books.filter fun b : Book => b.end_date.isSome).mergeSort endDateLe).map
        Book.title := rfl
  refine ⟨⟨?_, ?_⟩,
    (s.books.filter fun b : Book => b.end_date.isSome).mergeSort endDateLe,
    hfin, ?_, ?_⟩
  · intro t
    rw [hdef]
    simp only [List.mem_map, List.mem_mergeSort, List.mem_filter]
    constructor
    · rintro ⟨b, ⟨hb, hp⟩, rfl⟩
      exact ⟨b, hb, rfl, by simpa using hp⟩
    · rintro ⟨b, hb, rfl, hp⟩
      exact ⟨b, ⟨hb, by simpa using hp⟩, rfl⟩
  · rw [hdef]
    exact pairwise_titles_of_mergeSort _
  · intro b
    simp [List.mem_mergeSort, List.mem_filter]
  · refine List.Pairwise.imp ?_
      (List.sorted_mergeSort endDateLe_trans endDateLe_total _)
    intro a b h
    simpa [endDateLe] using h

/-- C9: List with --started prints exactly the titles whose start_date is
set and whose end_date is unset (a finished book is excluded), in
lexicographic order. -/
theorem list_started_filter (s : Store) (today : String) :
    (∀ t, t ∈ (exec (.List false true false) today s).2.1 ↔
      ∃ b ∈ s.books, b.title = t ∧ b.start_date.isSome ∧ b.end_date = none) ∧
    (exec (.List false true false) today s).2.1.Pairwise
      (fun x y : String => x ≤ y) := by
  have hst : (exec (.List false true false) today s).2.1 =
      ((s.books.filter fun b : Book =>
        b.start_date.isSome && b.end_date.isNone).mergeSort titleLe).map
        Book.title := rfl
  constructor
  · intro t
    rw [hst]
    simp only [List.mem_map, List.mem_mergeSort, List.mem_filter]
    constructor
    · rintro ⟨b, ⟨hb, hp⟩, rfl⟩
      simp only [Bool.and_eq_true, Option.isNone_iff_eq_none] at hp
      exact ⟨b, hb, rfl, hp.1, hp.2⟩
    · rintro ⟨b, hb, rfl, h1, h2⟩
      exact ⟨b, ⟨hb, by simp [h1, h2]⟩, rfl⟩
  · rw [hst]
    exact pairwise_titles_of_mergeSort _

/-- C8: when several List flags are passed, the applied filter is the first
true flag in the if/else-if chain, priority finished, then started, then
without-url, then the default. -/
theorem list_flag_priority (s : Store) (today : String) (f st w : Bool) :
    exec (.List f st w) today s =
      if f then exec (.List true false false) today s
      else if st then exec (.List false true false) today s
      else if w then exec (.List false false true) today s
      else exec (.List false false false) today s := by
  cases f <;> cases st <;> cases w <;> rfl

/-! Helper lemmas about the Add handler's author-insert loop. -/

theorem addAuthors_append (t : String) (as : List String) : ∀ s : Store,
    (s.books.any fun b => b.title == t) = true →
    as.Nodup →
    (∀ r ∈ s.authors, r.title = t → r.author ∉ as) →
    addAuthors t s as =
      .ok { books := s.books,
            authors := s.authors ++ as.map fun a => { title := t, author := a } } := by
  induction as with
  | nil =>
    intro s _ _ _
    simp [addAuthors]
  | cons a rest ih =>
    intro s hbook hnd hno
    have hpk : (s.authors.any fun r => r.title == t && r.author == a) = false := by
      rw [List.any_eq_false]
      intro r hr
      simp only [Bool.and_eq_true, beq_iff_eq, not_and]
      intro hrt hra
      exact absurd (hra ▸ List.mem_cons_self a rest) (hno r hr hrt)
    have hstep : insertAuthor s t a =
        .ok { s with authors := s.authors ++ [{ title := t, author := a }] } := by
      unfold insertAuthor
      rw [hpk, hbook]
      simp
    have hno2 : ∀ r ∈ ({ s with authors :=
          s.authors ++ [{ title := t, author := a }] } : Store).authors,
        r.title = t → r.author ∉ rest := by
      intro r hr hrt
      rcases List.mem_append.mp hr with hr | hr
      · exact fun hmem => hno r hr hrt (List.mem_cons_of_mem a hmem)
      · have hra : r = { title := t, author := a } := by simpa using hr
        rw [hra]
        exact (List.nodup_cons.mp hnd).1
    have hrest := ih { s with authors := s.authors ++ [{ title := t, author := a }] }
      hbook (List.nodup_cons.mp hnd).2 hno2
    calc addAuthors t s (a :: rest)
        = addAuthors t { s with authors :=
            s.authors ++ [{ title := t, author := a }] } rest := by
          show (match insertAuthor s t a with
            | Except.error e => Except.error e
            | Except.ok s2 => addAuthors t s2 rest) = _
          rw [hstep]
      _ = _ := by
          rw [hrest]
          simp [List.append_assoc]

theorem addExec_fresh (s : Store) (t : String) (as : List String)
    (u : Option String)
    (hwf : WF s)
    (hnew : ∀ b ∈ s.books, b.title ≠ t)
    (hnd : as.Nodup) :
    addExec s t as u =
      .ok { books := s.books ++ [newBook t u],
            authors := s.authors ++ as.map fun a => { title := t, author := a } } := by
  have hany : (s.books.any fun b => b.title == t) = false := by
    rw [List.any_eq_false]
    intro b hb
    simpa using hnew b hb
  have hins : insertBook s t u =
      .ok { s with books := s.books ++ [newBook t u] } := by
    unfold insertBook
    rw [hany]
    simp [newBook]
  have hbookin : ((({ s with books := s.books ++ [newBook t u] } : Store)).books.any
        fun b => b.title == t) = true := by
    rw [List.any_eq_true]
    exact ⟨newBook t u,
      List.mem_append_right _ (List.mem_singleton_self _), by simp [newBook]⟩
  have hno : ∀ r ∈ (({ s with books := s.books ++ [newBook t u] } : Store)).authors,
      r.title = t → r.author ∉ as := by
    intro r hr hrt
    obtain ⟨b2, hb2, hb2t⟩ := hwf.2.2 r hr
    exact absurd (hb2t.trans hrt) (hnew b2 hb2)
  have haa := addAuthors_append t as { s with books := s.books ++ [newBook t u] }
    hbookin hnd hno
  show (match insertBook s t u with
    | Except.error e => Except.error e
    | Except.ok s2 => addAuthors t s2 as) = _
  rw [hins]
  exact haa

/-- C2 counterexample: Add of a fresh title with two authors followed by
Show joins the authors with a comma (the handler calls authors.join(", ")),
not with the natural-language "A and B" form. -/
theorem show_two_authors_comma_join :
    (exec (.Show "Good Omens") "d"
        (exec (.Add "Good Omens" ["Terry Pratchett", "Neil Gaiman"] none) "d"
          Store.empty).1).2.1 =
      ["Title: Good Omens", "Authors: Terry Pratchett, Neil Gaiman"] ∧
    "Authors: Terry Pratchett and Neil Gaiman" ∉
      (exec (.Show "Good Omens") "d"
        (exec (.Add "Good Omens" ["Terry Pratchett", "Neil Gaiman"] none) "d"
          Store.empty).1).2.1 := by
  constructor
  · rfl
  · decide

/-- C2 amended: Add of a fresh title with one, two or three distinct authors
followed by Show reports exactly that title and that author list, joined
with ", " (comma join) rather than per the natural-language rule. -/
theorem add_show_reports_comma (s : Store) (t today today2 : String)
    (as : List String) (u : Option String)
    (hwf : WF s)
    (hnew : ∀ b ∈ s.books, b.title ≠ t)
    (hnd : as.Nodup)
    (_hlen : as.length = 1 ∨ as.length = 2 ∨ as.length = 3) :
    ∃ s2, exec (.Add t as u) today s = (s2, [], none) ∧
      (exec (.Show t) today2 s2).2.1 =
        ["Title: " ++ t]
        ++ (match u with | some x => ["URL: " ++ x] | none => [])
        ++ ["Authors: " ++ String.intercalate ", " as] := by
  have hadd := addExec_fresh s t as u hwf hnew hnd
  refine ⟨{ books := s.books ++ [newBook t u],
            authors := s.authors ++ as.map fun a => { title := t, author := a } },
    ?_, ?_⟩
  · show (match addExec s t as u with
      | Except.error e => (s, ([] : List String), some e)
      | Except.ok s2 => (s2, [], none)) = _
    rw [hadd]
  · have hfindold : (s.books.find? fun b => b.title == t) = none := by
      rw [List.find?_eq_none]
      intro b hb
      simpa using hnew b hb
    have hfind : ((s.books ++ [newBook t u]).find? fun b => b.title == t) =
        some (newBook t u) := by
      rw [List.find?_append, hfindold, Option.none_or]
      simp [List.find?, newBook]
    have hauth : authorsOf
        { books := s.books ++ [newBook t u],
          authors := s.authors ++ as.map fun a => { title := t, author := a } } t
        = as := by
      unfold authorsOf
      have h1 : (s.authors.filter fun a => a.title == t) = [] := by
        rw [List.filter_eq_nil_iff]
        intro r hr
        simp only [beq_iff_eq]
        intro hrt
        obtain ⟨b2, hb2, hb2t⟩ := hwf.2.2 r hr
        exact absurd (hb2t.trans hrt) (hnew b2 hb2)
      rw [List.filter_append, h1, List.nil_append, List.filter_map]
      have h2 : ((fun a : AuthorRow => a.title == t) ∘
          fun a => ({ title := t, author := a } : AuthorRow)) = fun _ => true := by
        funext a
        simp
      rw [h2, List.filter_true, List.map_map]
      have h3 : (AuthorRow.author ∘ fun a : String =>
          ({ title := t, author := a } : AuthorRow)) = id := rfl
      rw [h3, List.map_id]
    show (showExec _ t) = _
    unfold showExec
    rw [hfind]
    rw [hauth]
    simp only [newBook]
    cases u <;> rfl

/-- Witness for the amended C2 on the Good Omens scenario. -/
theorem add_show_reports_comma_witness :
    ∃ s2, exec (.Add "Good Omens" ["Terry Pratchett", "Neil Gaiman"] none) "d"
        Store.empty = (s2, [], none) ∧
      (exec (.Show "Good Omens") "d" s2).2.1 =
        ["Title: Good Omens"]
        ++ []
        ++ ["Authors: " ++ String.intercalate ", "
              ["Terry Pratchett", "Neil Gaiman"]] :=
  add_show_reports_comma Store.empty "Good Omens" "d" "d"
    ["Terry Pratchett", "Neil Gaiman"] none (by decide)
    (by simp [Store.empty]) (by decide) (by decide)

/-! Helper lemmas about the Rename handler's cascade. -/

theorem dupAuthorKeys_eq_false (l : List AuthorRow)
    (h : l.Pairwise fun a b => a.title ≠ b.title ∨ a.author ≠ b.author) :
    dupAuthorKeys l = false := by
  induction l with
  | nil => rfl
  | cons a l ih =>
    rw [List.pairwise_cons] at h
    simp only [dupAuthorKeys, Bool.or_eq_false_iff]
    refine ⟨?_, ih h.2⟩
    rw [List.any_eq_false]
    intro a2 ha2
    simp only [Bool.and_eq_true, beq_iff_eq, not_and]
    intro h1 h2
    rcases h.1 a2 ha2 with hk | hk
    · exact absurd h1.symm hk
    · exact absurd h2.symm hk

theorem pairwise_keys_map_rename (s : Store) (A B : String)
    (hwf : WF s) (hB : ∀ b2 ∈ s.books, b2.title ≠ B) :
    (s.authors.map fun a =>
      if a.title == A then { a with title := B } else a).Pairwise
      fun a b => a.title ≠ b.title ∨ a.author ≠ b.author := by
  have hnoB : ∀ r ∈ s.authors, r.title ≠ B := by
    intro r hr hrB
    obtain ⟨b2, hb2, hb2t⟩ := hwf.2.2 r hr
    exact hB b2 hb2 (hb2t.trans hrB)
  rw [List.pairwise_map]
  refine List.Pairwise.imp_of_mem ?_ hwf.2.1
  intro r1 r2 h1 h2 hk
  rcases hk with hk | hk
  · by_cases hA1 : r1.title = A <;> by_cases hA2 : r2.title = A
    · exact absurd (hA1.trans hA2.symm) hk
    · left
      simp only [hA1, hA2, beq_self_eq_true, if_true, beq_iff_eq, if_neg hA2]
      exact Ne.symm (hnoB r2 h2)
    · left
      simp only [hA2, beq_self_eq_true, if_true, beq_iff_eq, if_neg hA1]
      exact hnoB r1 h1
    · left
      simp only [beq_iff_eq, if_neg hA1, if_neg hA2]
      exact hk
  · right
    by_cases hA1 : r1.title = A <;> by_cases hA2 : r2.title = A <;>
      simp only [hA1, hA2, beq_self_eq_true, if_true, beq_iff_eq] <;>
      exact hk

theorem renameExec_ok (s : Store) (A B : String)
    (hwf : WF s) (b : Book) (hb : b ∈ s.books) (hbt : b.title = A)
    (hB : ∀ b2 ∈ s.books, b2.title ≠ B) :
    renameExec s A B =
      .ok { books := s.books.map fun x =>
              if x.title == A then { x with title := B } else x,
            authors := s.authors.map fun a =>
              if a.title == A then { a with title := B } else a } := by
  have hc : (s.books.countP fun x => x.title == A) = 1 :=
    countP_title_eq_one s.books A b hwf.1 hb hbt
  have hanyB : (s.books.any fun x => x.title == B) = false := by
    rw [List.any_eq_false]
    intro x hx
    simpa using hB x hx
  have hdup : dupAuthorKeys (s.authors.map fun a =>
      if a.title == A then { a with title := B } else a) = false :=
    dupAuthorKeys_eq_false _ (pairwise_keys_map_rename s A B hwf hB)
  unfold renameExec
  simp [hc, hanyB]
  simpa using hdup

/-- C3 counterexample: after adding "A" and renaming it to "B", Show "A"
does not fail with a not-found error — it reports no error at all and
prints nothing. -/
theorem show_after_rename_silent :
    ∃ s1, exec (.Rename "A" "B") "d"
        (exec (.Add "A" ["x"] none) "d" Store.empty).1 = (s1, [], none) ∧
      exec (.Show "A") "d" s1 = (s1, [], none) := by
  exact ⟨_, rfl, rfl⟩

/-- C3 amended: for a well-formed store containing a book titled A and no
book titled B, Rename A B succeeds and re-keys the author rows previously
keyed by A to B (cascade on update); a subsequent Show of A succeeds
silently, printing nothing, rather than failing with a not-found error. -/
theorem rename_cascades_show_silent (s : Store) (A B today today2 : String)
    (hwf : WF s) (hAB : A ≠ B) (b : Book) (hb : b ∈ s.books) (hbt : b.title = A)
    (hB : ∀ b2 ∈ s.books, b2.title ≠ B) :
    ∃ s2, exec (.Rename A B) today s = (s2, [], none) ∧
      s2.authors = s.authors.map
        (fun a => if a.title == A then { a with title := B } else a) ∧
      exec (.Show A) today2 s2 = (s2, [], none) := by
  have hren := renameExec_ok s A B hwf b hb hbt hB
  refine ⟨{ books := s.books.map fun x =>
              if x.title == A then { x with title := B } else x,
            authors := s.authors.map fun a =>
              if a.title == A then { a with title := B } else a },
    ?_, rfl, ?_⟩
  · show (match renameExec s A B with
      | Except.error e => (s, ([] : List String), some e)
      | Except.ok s2 => (s2, [], none)) = _
    rw [hren]
  · have hnone : ((s.books.map fun x =>
        if x.title == A then { x with title := B } else x).find?
          fun x => x.title == A) = none := by
      rw [List.find?_eq_none]
      intro x hx
      obtain ⟨y, hy, rfl⟩ := List.mem_map.mp hx
      by_cases hyA : y.title = A
      · simp only [hyA, beq_self_eq_true, if_true, beq_iff_eq]
        exact Ne.symm hAB
      · simp only [beq_iff_eq, if_neg hyA]
        exact hyA
    show (_, showExec _ A, _) = _
    unfold showExec
    rw [hnone]

/-- Witness for the amended C3 on a concrete store. -/
theorem rename_cascades_show_silent_witness :
    ∃ s2, exec (.Rename "A" "B") "d"
        { books := [{ title := "A", url := none, start_date := none,
                      end_date := none }],
          authors := [{ title := "A", author := "x" }] } = (s2, [], none) ∧
      s2.authors = [{ title := "A", author := "x" }].map
        (fun a => if a.title == "A" then { a with title := "B" } else a) ∧
      exec (.Show "A") "d" s2 = (s2, [], none) :=
  rename_cascades_show_silent
    { books := [{ title := "A", url := none, start_date := none,
                  end_date := none }],
      authors := [{ title := "A", author := "x" }] } "A" "B" "d" "d"
    (by decide) (by decide)
    { title := "A", url := none, start_date := none, end_date := none }
    (by simp) rfl (by decide)

/-! Helper lemmas inverting successful handler runs, for the lifecycle
invariant. -/

theorem insertBook_ok_inv (s : Store) (t : String) (u : Option String)
    (s2 : Store) (h : insertBook s t u = .ok s2) :
    s2 = { s with books := s.books ++ [newBook t u] } := by
  unfold insertBook at h
  split at h
  · exact absurd h (by simp)
  · cases h
    rfl

theorem insertAuthor_ok_books (s : Store) (t a : String) (s2 : Store)
    (h : insertAuthor s t a = .ok s2) : s2.books = s.books := by
  unfold insertAuthor at h
  split at h
  · exact absurd h (by simp)
  · split at h
    · cases h
      rfl
    · exact absurd h (by simp)

theorem addAuthors_ok_books (t : String) (as : List String) : ∀ s s2 : Store,
    addAuthors t s as = .ok s2 → s2.books = s.books := by
  induction as with
  | nil =>
    intro s s2 h
    cases h
    rfl
  | cons a rest ih =>
    intro s s2 h
    rw [show addAuthors t s (a :: rest) = (match insertAuthor s t a with
      | Except.error e => Except.error e
      | Except.ok s3 => addAuthors t s3 rest) from rfl] at h
    cases hins : insertAuthor s t a with
    | error e =>
      rw [hins] at h
      exact absurd h (by simp)
    | ok s3 =>
      rw [hins] at h
      rw [ih s3 s2 h, insertAuthor_ok_books s t a s3 hins]

theorem addExec_ok_books (s : Store) (t : String) (as : List String)
    (u : Option String) (s2 : Store) (h : addExec s t as u = .ok s2) :
    s2.books = s.books ++ [newBook t u] := by
  unfold addExec at h
  cases hins : insertBook s t u with
  | error e =>
    rw [hins] at h
    exact absurd h (by simp)
  | ok s3 =>
    rw [hins] at h
    obtain rfl := insertBook_ok_inv s t u s3 hins
    exact addAuthors_ok_books t as _ s2 h

theorem updateWhere_ok_inv (s : Store) (title : String) (f : Book → Book)
    (s2 : Store) (h : updateWhere s title f = .ok s2) :
    s2 = { s with books := s.books.map (fun b => if b.title == title then f b else b) } := by
  unfold updateWhere at h
  split at h
  · cases h
    rfl
  · exact absurd h (by simp)

theorem renameExec_ok_inv (s : Store) (ot nt : String) (s2 : Store)
    (h : renameExec s ot nt = .ok s2) :
    (ot = nt ∨ (s.books.any fun b => b.title == nt) = false) ∧
    s2 = { books := s.books.map fun b =>
             if b.title == ot then { b with title := nt } else b,
           authors := s.authors.map fun a =>
             if a.title == ot then { a with title := nt } else a } := by
  unfold renameExec at h
  split at h
  · exact absurd h (by simp)
  · next h2 =>
    split at h
    · exact absurd h (by simp)
    · next h3 =>
      split at h
      · exact absurd h (by simp)
      · split at h
        · cases h
          refine ⟨?_, rfl⟩
          by_cases hot : ot = nt
          · exact Or.inl hot
          · cases hb : (s.books.any fun b => b.title == nt) with
            | false => exact Or.inr rfl
            | true =>
              refine absurd ?_ h3
              rw [hb, Bool.and_true]
              exact decide_eq_true hot
        · exact absurd h (by simp)

/-- C7: every successful command preserves the book-lifecycle invariant:
every book row in the pre-state has a successor row in the post-state —
under the same title, or under the new title for the book moved by Rename —
whose start_date and end_date are never reset from set back to unset; and
every post-state row with a set end_date descends from a row that already
existed before the command, so a set end_date implies the book was
previously added (Add only creates rows with both dates NULL). -/
theorem lifecycle_monotone (c : Options) (today : String) (s : Store)
    (s2 : Store) (out : List String)
    (h : exec c today s = (s2, out, none)) :
    (∀ b ∈ s.books, ∃ b2 ∈ s2.books,
      (b2.title = b.title ∨
        ∃ ot nt, c = Options.Rename ot nt ∧ b.title = ot ∧ b2.title = nt) ∧
      (b.start_date.isSome → b2.start_date.isSome) ∧
      (b.end_date.isSome → b2.end_date.isSome)) ∧
    (∀ b2 ∈ s2.books, b2.end_date.isSome →
      ∃ b ∈ s.books,
        b2.title = b.title ∨
          ∃ ot nt, c = Options.Rename ot nt ∧ b.title = ot ∧ b2.title = nt) := by
  cases c with
  | Add t2 as u =>
    cases ha : addExec s t2 as u with
    | error e =>
      rw [show exec (.Add t2 as u) today s = (match addExec s t2 as u with
        | Except.error e => (s, ([] : List String), some e)
        | Except.ok s3 => (s3, [], none)) from rfl, ha] at h
      simp at h
    | ok s3 =>
      rw [show exec (.Add t2 as u) today s = (match addExec s t2 as u with
        | Except.error e => (s, ([] : List String), some e)
        | Except.ok s3 => (s3, [], none)) from rfl, ha] at h
      injection h with h1 h23
      subst h1
      have hbooks := addExec_ok_books s t2 as u s3 ha
      constructor
      · intro b hb
        refine ⟨b, ?_, Or.inl rfl, id, id⟩
        rw [hbooks]
        exact List.mem_append_left _ hb
      · intro b2 hb2 hend
        rw [hbooks] at hb2
        rcases List.mem_append.mp hb2 with hmem | hmem
        · exact ⟨b2, hmem, Or.inl rfl⟩
        · exfalso
          have hb2eq : b2 = newBook t2 u := by simpa using hmem
          rw [hb2eq] at hend
          simp [newBook] at hend
  | Finish t2 =>
    cases hs : finishExec s t2 today with
    | error e =>
      rw [show exec (.Finish t2) today s = (match finishExec s t2 today with
        | Except.error e => (s, ([] : List String), some e)
        | Except.ok s3 => (s3, [], none)) from rfl, hs] at h
      simp at h
    | ok s3 =>
      rw [show exec (.Finish t2) today s = (match finishExec s t2 today with
        | Except.error e => (s, ([] : List String), some e)
        | Except.ok s3 => (s3, [], none)) from rfl, hs] at h
      injection h with h1 h23
      subst h1
      unfold finishExec at hs
      obtain rfl := updateWhere_ok_inv _ _ _ _ hs
      constructor
      · intro b hb
        refine ⟨if b.title == t2 then { b with end_date := some today } else b,
          List.mem_map_of_mem _ hb, Or.inl ?_, ?_, ?_⟩ <;>
          by_cases hx : b.title = t2 <;> simp [hx]
      · intro b2 hb2 _
        obtain ⟨b, hbmem, rfl⟩ := List.mem_map.mp hb2
        refine ⟨b, hbmem, Or.inl ?_⟩
        by_cases hx : b.title = t2 <;> simp [hx]
  | List f st w =>
    have hs : s = s2 := congrArg Prod.fst h
    subst hs
    exact ⟨fun b hb => ⟨b, hb, Or.inl rfl, id, id⟩,
      fun b2 hb2 _ => ⟨b2, hb2, Or.inl rfl⟩⟩
  | Rename ot nt =>
    cases hr : renameExec s ot nt with
    | error e =>
      rw [show exec (.Rename ot nt) today s = (match renameExec s ot nt with
        | Except.error e => (s, ([] : List String), some e)
        | Except.ok s3 => (s3, [], none)) from rfl, hr] at h
      simp at h
    | ok s3 =>
      rw [show exec (.Rename ot nt) today s = (match renameExec s ot nt with
        | Except.error e => (s, ([] : List String), some e)
        | Except.ok s3 => (s3, [], none)) from rfl, hr] at h
      injection h with h1 h23
      subst h1
      obtain ⟨-, rfl⟩ := renameExec_ok_inv s ot nt s3 hr
      constructor
      · intro b hb
        refine ⟨if b.title == ot then { b with title := nt } else b,
          List.mem_map_of_mem _ hb, ?_, ?_, ?_⟩
        · by_cases hx : b.title = ot
          · exact Or.inr ⟨ot, nt, rfl, hx, by simp [hx]⟩
          · left
            simp [hx]
        · by_cases hx : b.title = ot <;> simp [hx]
        · by_cases hx : b.title = ot <;> simp [hx]
      · intro b2 hb2 _
        obtain ⟨b, hbmem, rfl⟩ := List.mem_map.mp hb2
        by_cases hx : b.title = ot
        · exact ⟨b, hbmem, Or.inr ⟨ot, nt, rfl, hx, by simp [hx]⟩⟩
        · exact ⟨b, hbmem, Or.inl (by simp [hx])⟩
  | SetUrl t2 u2 =>
    cases hs : setUrlExec s t2 u2 with
    | error e =>
      rw [show exec (.SetUrl t2 u2) today s = (match setUrlExec s t2 u2 with
        | Except.error e => (s, ([] : List String), some e)
        | Except.ok s3 => (s3, [], none)) from rfl, hs] at h
      simp at h
    | ok s3 =>
      rw [show exec (.SetUrl t2 u2) today s = (match setUrlExec s t2 u2 with
        | Except.error e => (s, ([] : List String), some e)
        | Except.ok s3 => (s3, [], none)) from rfl, hs] at h
      injection h with h1 h23
      subst h1
      unfold setUrlExec at hs
      obtain rfl := updateWhere_ok_inv _ _ _ _ hs
      constructor
      · intro b hb
        refine ⟨if b.title == t2 then { b with url := some u2 } else b,
          List.mem_map_of_mem _ hb, Or.inl ?_, ?_, ?_⟩ <;>
          by_cases hx : b.title = t2 <;> simp [hx]
      · intro b2 hb2 _
        obtain ⟨b, hbmem, rfl⟩ := List.mem_map.mp hb2
        refine ⟨b, hbmem, Or.inl ?_⟩
        by_cases hx : b.title = t2 <;> simp [hx]
  | Show t2 =>
    have hs : s = s2 := congrArg Prod.fst h
    subst hs
    exact ⟨fun b hb => ⟨b, hb, Or.inl rfl, id, id⟩,
      fun b2 hb2 _ => ⟨b2, hb2, Or.inl rfl⟩⟩
  | Start t2 =>
    cases hs : startExec s t2 today with
    | error e =>
      rw [show exec (.Start t2) today s = (match startExec s t2 today with
        | Except.error e => (s, ([] : List String), some e)
        | Except.ok s3 => (s3, [], none)) from rfl, hs] at h
      simp at h
    | ok s3 =>
      rw [show exec (.Start t2) today s = (match startExec s t2 today with
        | Except.error e => (s, ([] : List String), some e)
        | Except.ok s3 => (s3, [], none)) from rfl, hs] at h
      injection h with h1 h23
      subst h1
      unfold startExec at hs
      obtain rfl := updateWhere_ok_inv _ _ _ _ hs
      constructor
      · intro b hb
        refine ⟨if b.title == t2 then { b with start_date := some today } else b,
          List.mem_map_of_mem _ hb, Or.inl ?_, ?_, ?_⟩ <;>
          by_cases hx : b.title = t2 <;> simp [hx]
      · intro b2 hb2 _
        obtain ⟨b, hbmem, rfl⟩ := List.mem_map.mp hb2
        refine ⟨b, hbmem, Or.inl ?_⟩
        by_cases hx : b.title = t2 <;> simp [hx]

/-- Witness for C7: a successful Rename of a book whose dates are both set,
showing the moved book keeps its dates under the new title. -/
theorem lifecycle_monotone_witness :
    (∀ b ∈ ({ books := [{ title := "A", url := none, start_date := some "2024-01-01", end_date := some "2024-02-01" }], authors := [] } : Store).books,
      ∃ b2 ∈ (exec (.Rename "A" "B") "d"
          { books := [{ title := "A", url := none, start_date := some "2024-01-01", end_date := some "2024-02-01" }], authors := [] }).1.books,
        (b2.title = b.title ∨
          ∃ ot nt, Options.Rename "A" "B" = Options.Rename ot nt ∧
            b.title = ot ∧ b2.title = nt) ∧
        (b.start_date.isSome → b2.start_date.isSome) ∧
        (b.end_date.isSome → b2.end_date.isSome)) ∧
    (∀ b2 ∈ (exec (.Rename "A" "B") "d"
        { books := [{ title := "A", url := none, start_date := some "2024-01-01", end_date := some "2024-02-01" }], authors := [] }).1.books, b2.end_date.isSome →
      ∃ b ∈ ({ books := [{ title := "A", url := none, start_date := some "2024-01-01", end_date := some "2024-02-01" }], authors := [] } : Store).books,
        b2.title = b.title ∨
          ∃ ot nt, Options.Rename "A" "B" = Options.Rename ot nt ∧
            b.title = ot ∧ b2.title = nt) :=
  lifecycle_monotone (.Rename "A" "B") "d"
    { books := [{ title := "A", url := none, start_date := some "2024-01-01", end_date := some "2024-02-01" }], authors := [] } _ _ rfl
